import Mathlib

/-!
Verification of the light-cycle bot decision engine in
`src/client/andrei.cpp`: the grid model, move geometry, flood-fill
reachability analysis, move evaluation and the decision policy.

Machine `int` arithmetic never overflows on the quantities involved
(areas are at most `W*H`, risks at most `4`), so C++ `int` values are
modelled as `Int` and the `std::numeric_limits<int>::min()` initial
score as the explicit constant `INT_MIN`.
-/

/-- Integer 2-vector, the embedding of `sf::Vector2i`. -/
structure Vec2 where
  x : Int
  y : Int
deriving DecidableEq

instance : Add Vec2 :=
  ⟨fun a b => ⟨a.x + b.x, a.y + b.y⟩⟩

theorem Vec2.add_def (a b : Vec2) : a + b = ⟨a.x + b.x, a.y + b.y⟩ := rfl

/-- Modelled from the spec: the closed four-variant `Direction`
enumeration of `api.h` (declared outside `src/`), in the fixed
enumeration order north, east, south, west. -/
inductive Direction where
  | north
  | east
  | south
  | west
deriving DecidableEq

instance : Fintype Direction :=
  ⟨⟨[Direction.north, Direction.east, Direction.south, Direction.west], by decide⟩,
    by intro d; cases d <;> decide⟩

/-- Modelled from the spec: `getDirectionVector` of `api.h` (declared
outside `src/`), the fixed bijective mapping of the four directions onto
the unit displacements `{(0,-1),(1,0),(0,1),(-1,0)}`. -/
def getDirectionVector : Direction → Vec2
  | .north => ⟨0, -1⟩
  | .east => ⟨1, 0⟩
  | .south => ⟨0, 1⟩
  | .west => ⟨-1, 0⟩

/-- Modelled from the spec: `getDirectionFromValue` of `api.h` (declared
outside `src/`), the order-preserving conversion from an ordinal to a
`Direction`. -/
def getDirectionFromValue : Nat → Direction
  | 0 => .north
  | 1 => .east
  | 2 => .south
  | _ => .west

/-- The `directionVectors` member of `BotClient`: the four unit
displacements in enumeration order. -/
def directionVectors : List Vec2 :=
  [⟨0, -1⟩, ⟨1, 0⟩, ⟨0, 1⟩, ⟨-1, 0⟩]

/-- The per-tick game-state snapshot: grid dimensions and per-cell
contents. Modelled from the spec: the `GameState` container of `api.h`
(declared outside `src/`); `getGridCell p = 0` means cell `p` is empty,
any nonzero value means occupied. -/
structure GameState where
  gridWidth : Nat
  gridHeight : Nat
  getGridCell : Vec2 → Nat

/-- Modelled from the spec: `isInsideGrid` of `api.h` (declared outside
`src/`): a position is inside the grid iff it lies in `[0,W) x [0,H)`. -/
def GameState.isInsideGrid (s : GameState) (p : Vec2) : Bool :=
  decide (0 ≤ p.x ∧ p.x < (s.gridWidth : Int) ∧ 0 ≤ p.y ∧ p.y < (s.gridHeight : Int))

/-- The set of in-grid positions, i.e. `[0,W) x [0,H)` as a `Finset`. -/
def gridCells (s : GameState) : Finset Vec2 :=
  (Finset.range s.gridWidth ×ˢ Finset.range s.gridHeight).image
    (fun c => ⟨(c.1 : Int), (c.2 : Int)⟩)

/-- The visited array built by `evaluate_move` before flood fill: a
`W x H` boolean grid holding `true` exactly at occupied cells, embedded
as the `Finset` of in-grid cells whose contents are nonzero. -/
def occupiedVisited (s : GameState) : Finset Vec2 :=
  (gridCells s).filter (fun p => s.getGridCell p ≠ 0)

/-- One step of the inner `for` loop of `flood_fill` over
`directionVectors`: from the dequeued cell `current`, the neighbor
`current + d` is marked visited and enqueued when it is inside the grid,
empty, and not yet visited. The accumulator carries the visited set and
the queue (new cells are pushed at the back, as with `std::queue`). -/
def floodStep (s : GameState) (current : Vec2) (acc : Finset Vec2 × List Vec2)
    (d : Vec2) : Finset Vec2 × List Vec2 :=
  if s.isInsideGrid (current + d) = true ∧ s.getGridCell (current + d) = 0 ∧
      (current + d) ∉ acc.1 then
    (insert (current + d) acc.1, acc.2 ++ [current + d])
  else
    acc

/-- The `while (!q.empty())` loop of `flood_fill`. Each iteration pops
the front of the queue, increments the area, and processes the four
neighbors with `floodStep`. The structural `fuel` parameter bounds the
number of iterations; `flood_fill` passes a fuel proven sufficient
(see `floodLoop_invariant`), so the fuel-exhausted branch is unreachable
there and the loop always drains the queue. -/
def floodLoop (s : GameState) : Nat → Finset Vec2 → List Vec2 → Nat → Nat × Finset Vec2
  | 0, visited, _, area => (area, visited)
  | _ + 1, visited, [], area => (area, visited)
  | fuel + 1, visited, current :: rest, area =>
    let r := directionVectors.foldl (floodStep s current) (visited, rest)
    floodLoop s fuel r.1 r.2 (area + 1)

/-- `flood_fill(position, visited)`: enqueue and mark the start cell,
then run the BFS loop with area initialised to `0`. Returns the final
area together with the final visited set (the C++ function mutates the
caller-owned `visited` array; the pair's second component is that final
array). The fuel `(gridCells s \ visited').card + 1` dominates the loop
iteration count. -/
def flood_fill (s : GameState) (position : Vec2) (visited : Finset Vec2) :
    Nat × Finset Vec2 :=
  let visited' := insert position visited
  floodLoop s ((gridCells s \ visited').card + 1) visited' [position] 0

/-- `is_valid_move(direction)` of `BotClient`, with the implicit
`my_player.position` made an explicit argument: the displaced position
must be inside the grid and its cell empty. -/
def is_valid_move (s : GameState) (pos : Vec2) (direction : Direction) : Bool :=
  let new_pos := pos + getDirectionVector direction
  if !s.isInsideGrid new_pos then
    false
  else if s.getGridCell new_pos != 0 then
    false
  else
    true

/-- `evaluate_move(direction)` of `BotClient`: `-1` for an invalid move;
otherwise the flood-fill area from the displaced position (with occupied
cells pre-marked visited) minus ten times the count of adjacent
positions that are off-grid or occupied. -/
def evaluate_move (s : GameState) (pos : Vec2) (direction : Direction) : Int :=
  if !is_valid_move s pos direction then
    -1
  else
    let new_pos := pos + getDirectionVector direction
    let visited := occupiedVisited s
    let area := (flood_fill s new_pos visited).1
    let risk := (directionVectors.filter (fun d =>
      !s.isInsideGrid (new_pos + d) || s.getGridCell (new_pos + d) != 0)).length
    (area : Int) - risk * 10

/-- `std::numeric_limits<int>::min()` for 32-bit `int`. -/
def INT_MIN : Int := -2147483648

/-- `decide_move()` of `BotClient`: evaluate the four directions in
ordinal order `0,1,2,3`, keeping the running best; a later direction
replaces the best only on a strictly greater score. The initial best is
`north` with score `INT_MIN`. -/
def decide_move (s : GameState) (pos : Vec2) : Direction :=
  (([0, 1, 2, 3] : List Nat).foldl
    (fun acc i =>
      let direction := getDirectionFromValue i
      let score := evaluate_move s pos direction
      if score > acc.1 then (score, direction) else acc)
    (INT_MIN, Direction.north)).2

/-- A player as far as the decision path observes it: a name and a
position. -/
structure Player where
  name : String
  position : Vec2
deriving DecidableEq

/-- The state of a `BotClient` relevant to one decision: its name, the
current game state, its own player record, and the seeded random
generator state `rng` (a `std::mt19937` in the source, abstracted to its
seed value; the decision path never reads it). -/
structure BotClient where
  name : String
  state : GameState
  my_player : Player
  rng : Nat

/-- The `decide_move` method as invoked on a `BotClient`: it reads only
`state` and `my_player.position`. -/
def BotClient.decideMove (b : BotClient) : Direction :=
  decide_move b.state b.my_player.position

/-- Spec-side notion: `q` is one of the four cardinal neighbors of `p`. -/
def adjacent (p q : Vec2) : Prop :=
  ∃ d ∈ directionVectors, q = p + d

/-- Spec-side notion: cell `p` is empty for a flood fill seeded with
`v₀`: inside the grid, contents zero, and not pre-visited. -/
def emptyCell (s : GameState) (v₀ : Finset Vec2) (p : Vec2) : Prop :=
  s.isInsideGrid p = true ∧ s.getGridCell p = 0 ∧ p ∉ v₀

/-- The set of cells the flood fill from `start` reaches: `start`
itself plus every cell connected to it by a chain of cardinal steps
whose targets are empty unvisited cells. -/
def floodReach (s : GameState) (v₀ : Finset Vec2) (start : Vec2) : Set Vec2 :=
  {p | Relation.ReflTransGen (fun a b => adjacent a b ∧ emptyCell s v₀ b) start p}

/-- Spec-side notion: `a` and `b` lie in the same connected component
of empty cells, under 4-neighbor adjacency with both endpoints of every
step empty. -/
def sameComponent (s : GameState) (v₀ : Finset Vec2) (a b : Vec2) : Prop :=
  Relation.ReflTransGen
    (fun p q => adjacent p q ∧ emptyCell s v₀ p ∧ emptyCell s v₀ q) a b

/-- Spec-side notion: the connected component of empty cells containing
`start`. -/
def connComponent (s : GameState) (v₀ : Finset Vec2) (start : Vec2) : Set Vec2 :=
  {p | sameComponent s v₀ start p}

/-- Spec-side notion: the count, over the four directions, of cardinal
neighbors of `p` that are out of bounds or occupied. -/
def riskCount (s : GameState) (p : Vec2) : Nat :=
  [Direction.north, Direction.east, Direction.south, Direction.west].countP
    (fun d => decide (¬ s.isInsideGrid (p + getDirectionVector d) = true ∨
      s.getGridCell (p + getDirectionVector d) ≠ 0))

/-- The flood-fill area from `start` as `evaluate_move` computes it:
occupied cells pre-marked visited. -/
def areaFrom (s : GameState) (start : Vec2) : Nat :=
  (flood_fill s start (occupiedVisited s)).1

/-- The grid with cell `c` additionally marked occupied. -/
def markOccupied (s : GameState) (c : Vec2) : GameState :=
  { s with getGridCell := fun p => if p = c then 1 else s.getGridCell p }

/-- The score `decide_move` sees for ordinal `i`. -/
def dirScore (s : GameState) (pos : Vec2) (i : Nat) : Int :=
  evaluate_move s pos (getDirectionFromValue i)

/-- The earliest ordinal among `0,1,2,3` attaining the maximum score:
the first one whose score is greater than or equal to all four scores. -/
def firstMaxIdx (s : GameState) (pos : Vec2) : Nat :=
  if dirScore s pos 0 ≥ dirScore s pos 1 ∧ dirScore s pos 0 ≥ dirScore s pos 2 ∧
      dirScore s pos 0 ≥ dirScore s pos 3 then 0
  else if dirScore s pos 1 ≥ dirScore s pos 0 ∧ dirScore s pos 1 ≥ dirScore s pos 2 ∧
      dirScore s pos 1 ≥ dirScore s pos 3 then 1
  else if dirScore s pos 2 ≥ dirScore s pos 0 ∧ dirScore s pos 2 ≥ dirScore s pos 1 ∧
      dirScore s pos 2 ≥ dirScore s pos 3 then 2
  else 3

/-- Concrete 3-by-1 grid with the two cells `(1,0)` and `(2,0)`
occupied; the player standing at `(1,0)` has exactly one legal move
(west, into a dead end scoring `1 - 4*10 = -39`). -/
def cexGrid : GameState :=
  ⟨3, 1, fun p => if p = ⟨1, 0⟩ ∨ p = ⟨2, 0⟩ then 1 else 0⟩

/-- Concrete fully empty 3-by-3 grid. -/
def emptyGrid3 : GameState := ⟨3, 3, fun _ => 0⟩

/-- Concrete fully empty 4-by-4 grid. -/
def emptyGrid4 : GameState := ⟨4, 4, fun _ => 0⟩

/-- Concrete fully empty 4-by-3 grid. -/
def emptyGrid4x3 : GameState := ⟨4, 3, fun _ => 0⟩

/-- Concrete fully empty 3-by-4 grid. -/
def emptyGrid3x4 : GameState := ⟨3, 4, fun _ => 0⟩

/-- Concrete 1-by-1 grid: from its single cell every move is illegal. -/
def emptyGrid1 : GameState := ⟨1, 1, fun _ => 0⟩

/-- Two bots sharing the observable state but with different random
seeds and names. -/
def botA : BotClient := ⟨"a", emptyGrid3, ⟨"a", ⟨1, 1⟩⟩, 0⟩

/-- See `botA`: same state and player, different seed. -/
def botB : BotClient := ⟨"b", emptyGrid3, ⟨"a", ⟨1, 1⟩⟩, 999⟩

/-! ## Grid membership -/

theorem mem_gridCells {s : GameState} {p : Vec2} :
    p ∈ gridCells s ↔ s.isInsideGrid p = true := by
  simp only [gridCells, Finset.mem_image, Finset.mem_product, Finset.mem_range,
    GameState.isInsideGrid, decide_eq_true_eq]
  constructor
  · rintro ⟨⟨a, b⟩, ⟨ha, hb⟩, rfl⟩
    dsimp only
    omega
  · rintro ⟨h1, h2, h3, h4⟩
    refine ⟨⟨p.x.toNat, p.y.toNat⟩, ⟨by omega, by omega⟩, ?_⟩
    cases p with
    | mk x y =>
      dsimp only at h1 h2 h3 h4
      simp only [Vec2.mk.injEq]
      omega

theorem gridCells_card (s : GameState) :
    (gridCells s).card = s.gridWidth * s.gridHeight := by
  rw [gridCells, Finset.card_image_of_injective, Finset.card_product,
    Finset.card_range, Finset.card_range]
  rintro ⟨a, b⟩ ⟨c, d⟩ h
  simp only [Vec2.mk.injEq] at h
  refine Prod.ext ?_ ?_ <;> dsimp only <;> omega

/-! ## Properties of the neighbor-processing fold in `floodLoop` -/

theorem foldFlood_subset (s : GameState) (current : Vec2) :
    ∀ (ds : List Vec2) (acc : Finset Vec2 × List Vec2),
    acc.1 ⊆ (ds.foldl (floodStep s current) acc).1 := by
  intro ds
  induction ds with
  | nil => intro acc; exact Finset.Subset.refl _
  | cons d tl ih =>
    intro acc
    refine Finset.Subset.trans ?_ (ih (floodStep s current acc d))
    unfold floodStep
    split
    · exact Finset.subset_insert _ _
    · exact Finset.Subset.refl _

theorem foldFlood_measure (s : GameState) (current : Vec2) :
    ∀ (ds : List Vec2) (acc : Finset Vec2 × List Vec2),
    (gridCells s \ (ds.foldl (floodStep s current) acc).1).card
        + (ds.foldl (floodStep s current) acc).2.length
      ≤ (gridCells s \ acc.1).card + acc.2.length := by
  intro ds
  induction ds with
  | nil => intro acc; exact le_refl _
  | cons d tl ih =>
    intro acc
    refine le_trans (ih (floodStep s current acc d)) ?_
    unfold floodStep
    split
    · next h =>
      have hmem : current + d ∈ gridCells s \ acc.1 :=
        Finset.mem_sdiff.2 ⟨mem_gridCells.2 h.1, h.2.2⟩
      have hpos : 1 ≤ (gridCells s \ acc.1).card := Finset.card_pos.2 ⟨_, hmem⟩
      rw [Finset.sdiff_insert, Finset.card_erase_of_mem hmem, List.length_append]
      simp only [List.length_cons, List.length_nil]
      omega
    · exact le_refl _

theorem foldFlood_card (s : GameState) (current : Vec2) :
    ∀ (ds : List Vec2) (acc : Finset Vec2 × List Vec2),
    (ds.foldl (floodStep s current) acc).1.card + acc.2.length
      = acc.1.card + (ds.foldl (floodStep s current) acc).2.length := by
  intro ds
  induction ds with
  | nil => intro acc; rfl
  | cons d tl ih =>
    intro acc
    have h2 := ih (floodStep s current acc d)
    have h3 : (floodStep s current acc d).1.card + acc.2.length
        = acc.1.card + (floodStep s current acc d).2.length := by
      unfold floodStep
      split
      · next h =>
        rw [Finset.card_insert_of_not_mem h.2.2, List.length_append]
        simp only [List.length_cons, List.length_nil]
        omega
      · rfl
    simp only [List.foldl_cons] at *
    omega

theorem foldFlood_queue_extends (s : GameState) (current : Vec2) :
    ∀ (ds : List Vec2) (acc : Finset Vec2 × List Vec2),
    ∃ l, (ds.foldl (floodStep s current) acc).2 = acc.2 ++ l := by
  intro ds
  induction ds with
  | nil => intro acc; exact ⟨[], (List.append_nil _).symm⟩
  | cons d tl ih =>
    intro acc
    obtain ⟨l, hl⟩ := ih (floodStep s current acc d)
    rw [List.foldl_cons, hl]
    unfold floodStep
    split
    · exact ⟨[current + d] ++ l, by simp⟩
    · exact ⟨l, rfl⟩

theorem foldFlood_queue_mono (s : GameState) (current : Vec2)
    (ds : List Vec2) (acc : Finset Vec2 × List Vec2) {b : Vec2} (hb : b ∈ acc.2) :
    b ∈ (ds.foldl (floodStep s current) acc).2 := by
  obtain ⟨l, hl⟩ := foldFlood_queue_extends s current ds acc
  rw [hl]
  exact List.mem_append_left _ hb

theorem foldFlood_vis_mem (s : GameState) (current : Vec2) :
    ∀ (ds : List Vec2) (acc : Finset Vec2 × List Vec2) (b : Vec2),
    b ∈ (ds.foldl (floodStep s current) acc).1 →
    b ∈ acc.1 ∨ (b ∈ (ds.foldl (floodStep s current) acc).2 ∧
      (∃ d ∈ ds, b = current + d) ∧ s.isInsideGrid b = true ∧
      s.getGridCell b = 0 ∧ b ∉ acc.1) := by
  intro ds
  induction ds with
  | nil => intro acc b hb; exact Or.inl hb
  | cons d tl ih =>
    intro acc b hb
    rw [List.foldl_cons] at hb ⊢
    rcases ih (floodStep s current acc d) b hb with h | ⟨hq, ⟨d', hd', hbd⟩, hin, hc, hnotin⟩
    · by_cases hg : s.isInsideGrid (current + d) = true ∧
          s.getGridCell (current + d) = 0 ∧ (current + d) ∉ acc.1
      · rw [floodStep, if_pos hg] at h
        rcases Finset.mem_insert.1 h with rfl | h'
        · refine Or.inr ⟨?_, ⟨d, List.mem_cons_self _ _, rfl⟩, hg.1, hg.2.1, hg.2.2⟩
          refine foldFlood_queue_mono s current tl _ ?_
          rw [floodStep, if_pos hg]
          exact List.mem_append_right _ (List.mem_singleton.2 rfl)
        · exact Or.inl h'
      · rw [floodStep, if_neg hg] at h
        exact Or.inl h
    · have hsub : acc.1 ⊆ (floodStep s current acc d).1 := by
        rw [floodStep]
        split
        · exact Finset.subset_insert _ _
        · exact Finset.Subset.refl _
      exact Or.inr ⟨hq, ⟨d', List.mem_cons_of_mem _ hd', hbd⟩, hin, hc,
        fun hmem => hnotin (hsub hmem)⟩

theorem foldFlood_queue_mem (s : GameState) (current : Vec2) :
    ∀ (ds : List Vec2) (acc : Finset Vec2 × List Vec2) (b : Vec2),
    b ∈ (ds.foldl (floodStep s current) acc).2 →
    b ∈ acc.2 ∨ ((∃ d ∈ ds, b = current + d) ∧ s.isInsideGrid b = true ∧
      s.getGridCell b = 0 ∧ b ∉ acc.1) := by
  intro ds
  induction ds with
  | nil => intro acc b hb; exact Or.inl hb
  | cons d tl ih =>
    intro acc b hb
    rw [List.foldl_cons] at hb
    rcases ih (floodStep s current acc d) b hb with h | ⟨⟨d', hd', hbd⟩, hin, hc, hnotin⟩
    · by_cases hg : s.isInsideGrid (current + d) = true ∧
          s.getGridCell (current + d) = 0 ∧ (current + d) ∉ acc.1
      · rw [floodStep, if_pos hg] at h
        rcases List.mem_append.1 h with h' | h'
        · exact Or.inl h'
        · rw [List.mem_singleton] at h'
          subst h'
          exact Or.inr ⟨⟨d, List.mem_cons_self _ _, rfl⟩, hg.1, hg.2.1, hg.2.2⟩
      · rw [floodStep, if_neg hg] at h
        exact Or.inl h
    · have hsub : acc.1 ⊆ (floodStep s current acc d).1 := by
        rw [floodStep]
        split
        · exact Finset.subset_insert _ _
        · exact Finset.Subset.refl _
      exact Or.inr ⟨⟨d', List.mem_cons_of_mem _ hd', hbd⟩, hin, hc,
        fun hmem => hnotin (hsub hmem)⟩

theorem foldFlood_closure (s : GameState) (current : Vec2) :
    ∀ (ds : List Vec2) (acc : Finset Vec2 × List Vec2) (d : Vec2), d ∈ ds →
    s.isInsideGrid (current + d) = true → s.getGridCell (current + d) = 0 →
    (current + d) ∈ (ds.foldl (floodStep s current) acc).1 := by
  intro ds
  induction ds with
  | nil => intro acc d hd; exact absurd hd (List.not_mem_nil d)
  | cons d0 tl ih =>
    intro acc d hd hin hc
    rw [List.foldl_cons]
    rcases List.mem_cons.1 hd with rfl | hd'
    · by_cases hg : s.isInsideGrid (current + d) = true ∧
          s.getGridCell (current + d) = 0 ∧ (current + d) ∉ acc.1
      · refine foldFlood_subset s current tl _ ?_
        rw [floodStep, if_pos hg]
        exact Finset.mem_insert_self _ _
      · push_neg at hg
        refine foldFlood_subset s current tl _ ?_
        have : (current + d) ∈ acc.1 := hg hin hc
        rw [floodStep]
        split
        · exact Finset.mem_insert_of_mem this
        · exact this
    · exact ih _ d hd' hin hc

/-! ## The flood-fill loop invariant -/

theorem floodLoop_invariant (s : GameState) (v₀ : Finset Vec2) (start : Vec2) :
    ∀ (fuel : Nat) (v : Finset Vec2) (q : List Vec2) (a : Nat),
    (gridCells s \ v).card + q.length ≤ fuel →
    v₀ ⊆ v →
    (∀ c ∈ v, c ∈ v₀ ∨ c ∈ floodReach s v₀ start) →
    (∀ c ∈ q, c ∈ floodReach s v₀ start) →
    (∀ c ∈ v, c ∉ q → (c ∈ v₀ ∧ c ≠ start) ∨
      (∀ b, adjacent c b → s.isInsideGrid b = true → s.getGridCell b = 0 → b ∈ v)) →
    (floodLoop s fuel v q a).1 + v.card
        = a + q.length + (floodLoop s fuel v q a).2.card ∧
    v ⊆ (floodLoop s fuel v q a).2 ∧
    (∀ c ∈ (floodLoop s fuel v q a).2, c ∈ v₀ ∨ c ∈ floodReach s v₀ start) ∧
    (∀ c ∈ (floodLoop s fuel v q a).2, (c ∈ v₀ ∧ c ≠ start) ∨
      (∀ b, adjacent c b → s.isInsideGrid b = true → s.getGridCell b = 0 →
        b ∈ (floodLoop s fuel v q a).2)) := by
  intro fuel
  induction fuel with
  | zero =>
    intro v q a hfuel hsub hsound hqreach hclosed
    have hq : q = [] := by
      cases q with
      | nil => rfl
      | cons x xs => simp at hfuel
    subst hq
    have hrw : floodLoop s 0 v [] a = (a, v) := rfl
    rw [hrw]
    exact ⟨by simp, Finset.Subset.refl _, hsound,
      fun c hc => hclosed c hc (List.not_mem_nil c)⟩
  | succ fuel ih =>
    intro v q a hfuel hsub hsound hqreach hclosed
    cases q with
    | nil =>
      have hrw : floodLoop s (fuel + 1) v [] a = (a, v) := rfl
      rw [hrw]
      exact ⟨by simp, Finset.Subset.refl _, hsound,
        fun c hc => hclosed c hc (List.not_mem_nil c)⟩
    | cons current rest =>
      have hcur : current ∈ floodReach s v₀ start :=
        hqreach current (List.mem_cons_self _ _)
      have hstep : floodLoop s (fuel + 1) v (current :: rest) a
          = floodLoop s fuel
              (directionVectors.foldl (floodStep s current) (v, rest)).1
              (directionVectors.foldl (floodStep s current) (v, rest)).2
              (a + 1) := rfl
      set r := directionVectors.foldl (floodStep s current) (v, rest) with hr
      have hsub1 : v ⊆ r.1 := foldFlood_subset s current directionVectors (v, rest)
      have hmeas : (gridCells s \ r.1).card + r.2.length ≤ fuel := by
        have hm := foldFlood_measure s current directionVectors (v, rest)
        rw [← hr] at hm
        dsimp only at hm
        simp only [List.length_cons] at hfuel
        omega
      have hsoundR : ∀ c ∈ r.1, c ∈ v₀ ∨ c ∈ floodReach s v₀ start := by
        intro c hc
        rcases foldFlood_vis_mem s current directionVectors (v, rest) c hc with
          h | ⟨_, ⟨d, hd, rfl⟩, hin, hcell, hnot⟩
        · exact hsound c h
        · exact Or.inr (Relation.ReflTransGen.tail hcur
            ⟨⟨d, hd, rfl⟩, hin, hcell, fun hv0 => hnot (hsub hv0)⟩)
      have hqreachR : ∀ c ∈ r.2, c ∈ floodReach s v₀ start := by
        intro c hc
        rcases foldFlood_queue_mem s current directionVectors (v, rest) c hc with
          h | ⟨⟨d, hd, rfl⟩, hin, hcell, hnot⟩
        · exact hqreach c (List.mem_cons_of_mem _ h)
        · exact Relation.ReflTransGen.tail hcur
            ⟨⟨d, hd, rfl⟩, hin, hcell, fun hv0 => hnot (hsub hv0)⟩
      have hclosedR : ∀ c ∈ r.1, c ∉ r.2 → (c ∈ v₀ ∧ c ≠ start) ∨
          (∀ b, adjacent c b → s.isInsideGrid b = true → s.getGridCell b = 0 →
            b ∈ r.1) := by
        intro c hc hcq
        rcases foldFlood_vis_mem s current directionVectors (v, rest) c hc with
          h | ⟨hq2, _, _⟩
        · by_cases hcq0 : c ∈ current :: rest
          · rcases List.mem_cons.1 hcq0 with rfl | hrest
            · refine Or.inr ?_
              rintro b ⟨d, hd, rfl⟩ hin hcell
              exact foldFlood_closure s c directionVectors (v, rest) d hd hin hcell
            · exact absurd
                (foldFlood_queue_mono s current directionVectors (v, rest) hrest) hcq
          · rcases hclosed c h hcq0 with hl | hrc
            · exact Or.inl hl
            · exact Or.inr fun b hadj hin hcell => hsub1 (hrc b hadj hin hcell)
        · exact absurd hq2 hcq
      obtain ⟨hcount, hsubF, hsoundF, hclosedF⟩ :=
        ih r.1 r.2 (a + 1) hmeas (hsub.trans hsub1) hsoundR hqreachR hclosedR
      rw [hstep]
      refine ⟨?_, hsub1.trans hsubF, hsoundF, hclosedF⟩
      have hcard := foldFlood_card s current directionVectors (v, rest)
      rw [← hr] at hcard
      dsimp only at hcard
      simp only [List.length_cons]
      omega

/-! ## Characterisation of `flood_fill` -/

theorem floodReach_cases {s : GameState} {v₀ : Finset Vec2} {start p : Vec2}
    (hp : p ∈ floodReach s v₀ start) : p = start ∨ emptyCell s v₀ p := by
  rcases Relation.ReflTransGen.cases_tail hp with h | ⟨c, _, hstep⟩
  · exact Or.inl h
  · exact Or.inr hstep.2

theorem floodReach_subset_grid (s : GameState) (v₀ : Finset Vec2) (start : Vec2) :
    floodReach s v₀ start ⊆ insert start (↑(gridCells s) : Set Vec2) := by
  intro p hp
  rcases floodReach_cases hp with rfl | he
  · exact Set.mem_insert _ _
  · exact Set.mem_insert_of_mem _ (mem_gridCells.2 he.1)

theorem floodReach_finite (s : GameState) (v₀ : Finset Vec2) (start : Vec2) :
    (floodReach s v₀ start).Finite :=
  Set.Finite.subset (Set.Finite.insert start (gridCells s).finite_toSet)
    (floodReach_subset_grid s v₀ start)

theorem floodReach_self (s : GameState) (v₀ : Finset Vec2) (start : Vec2) :
    start ∈ floodReach s v₀ start :=
  Relation.ReflTransGen.refl

theorem flood_fill_inv (s : GameState) (v₀ : Finset Vec2) (start : Vec2) :
    (flood_fill s start v₀).1 + (insert start v₀).card
        = 1 + (flood_fill s start v₀).2.card ∧
    insert start v₀ ⊆ (flood_fill s start v₀).2 ∧
    (∀ c ∈ (flood_fill s start v₀).2, c ∈ v₀ ∨ c ∈ floodReach s v₀ start) ∧
    (∀ c ∈ (flood_fill s start v₀).2, (c ∈ v₀ ∧ c ≠ start) ∨
      (∀ b, adjacent c b → s.isInsideGrid b = true → s.getGridCell b = 0 →
        b ∈ (flood_fill s start v₀).2)) := by
  have hsound : ∀ c ∈ insert start v₀, c ∈ v₀ ∨ c ∈ floodReach s v₀ start := by
    intro c hc
    rcases Finset.mem_insert.1 hc with rfl | h
    · exact Or.inr (floodReach_self s v₀ c)
    · exact Or.inl h
  have hqreach : ∀ c ∈ [start], c ∈ floodReach s v₀ start := by
    intro c hc
    rw [List.mem_singleton] at hc
    subst hc
    exact floodReach_self s v₀ c
  have hclosed : ∀ c ∈ insert start v₀, c ∉ [start] → (c ∈ v₀ ∧ c ≠ start) ∨
      (∀ b, adjacent c b → s.isInsideGrid b = true → s.getGridCell b = 0 →
        b ∈ insert start v₀) := by
    intro c hc hcq
    rw [List.mem_singleton] at hcq
    rcases Finset.mem_insert.1 hc with rfl | h
    · exact absurd rfl hcq
    · exact Or.inl ⟨h, hcq⟩
  have h := floodLoop_invariant s v₀ start
    ((gridCells s \ insert start v₀).card + 1) (insert start v₀) [start] 0
    (by simp) (Finset.subset_insert _ _) hsound hqreach hclosed
  have hrw : flood_fill s start v₀
      = floodLoop s ((gridCells s \ insert start v₀).card + 1)
          (insert start v₀) [start] 0 := rfl
  rw [hrw]
  obtain ⟨h1, h2, h3, h4⟩ := h
  refine ⟨?_, h2, h3, h4⟩
  simp only [List.length_singleton] at h1
  omega

theorem flood_fill_reach_subset (s : GameState) (v₀ : Finset Vec2) (start : Vec2) :
    ∀ p ∈ floodReach s v₀ start, p ∈ (flood_fill s start v₀).2 := by
  obtain ⟨_, hsubF, _, hclosedF⟩ := flood_fill_inv s v₀ start
  intro p hp
  induction hp with
  | refl => exact hsubF (Finset.mem_insert_self _ _)
  | tail h hstep ih =>
    rename_i b p'
    rcases hclosedF b ih with ⟨hbv, hbne⟩ | hcl
    · rcases floodReach_cases h with rfl | he
      · exact absurd rfl hbne
      · exact absurd hbv he.2.2
    · exact hcl p' hstep.1 hstep.2.1 hstep.2.2.1

theorem flood_fill_visited_eq (s : GameState) (v₀ : Finset Vec2) (start : Vec2) :
    ((flood_fill s start v₀).2 : Set Vec2) = ↑v₀ ∪ floodReach s v₀ start := by
  obtain ⟨_, hsubF, hsoundF, _⟩ := flood_fill_inv s v₀ start
  ext p
  constructor
  · intro hp
    rcases hsoundF p hp with h | h
    · exact Or.inl h
    · exact Or.inr h
  · rintro (h | h)
    · exact hsubF (Finset.mem_insert_of_mem h)
    · exact flood_fill_reach_subset s v₀ start p h

theorem flood_fill_area_eq (s : GameState) (v₀ : Finset Vec2) (start : Vec2) :
    (flood_fill s start v₀).1 = (floodReach s v₀ start).ncard := by
  obtain ⟨hcount, hsubF, hsoundF, _⟩ := flood_fill_inv s v₀ start
  have hset : floodReach s v₀ start
      = ↑(insert start ((flood_fill s start v₀).2 \ v₀)) := by
    rw [Finset.coe_insert, Finset.coe_sdiff]
    ext p
    constructor
    · intro hp
      rcases floodReach_cases hp with rfl | he
      · exact Set.mem_insert _ _
      · exact Set.mem_insert_of_mem _
          ⟨flood_fill_reach_subset s v₀ start p hp, he.2.2⟩
    · rintro (rfl | ⟨hmem, hnot⟩)
      · exact floodReach_self s v₀ p
      · rcases hsoundF p hmem with h | h
        · exact absurd h hnot
        · exact h
  rw [hset, Set.ncard_coe_Finset]
  have hv₀sub : v₀ ⊆ (flood_fill s start v₀).2 :=
    (Finset.subset_insert _ _).trans hsubF
  have hsd := Finset.card_sdiff hv₀sub
  by_cases hst : start ∈ v₀
  · have h1 : insert start v₀ = v₀ := Finset.insert_eq_self.2 hst
    have h2 : start ∉ (flood_fill s start v₀).2 \ v₀ := fun hc =>
      (Finset.mem_sdiff.1 hc).2 hst
    rw [Finset.card_insert_of_not_mem h2]
    rw [h1] at hcount
    have hcv : v₀.card ≤ (flood_fill s start v₀).2.card :=
      Finset.card_le_card hv₀sub
    omega
  · have h1 : (insert start v₀).card = v₀.card + 1 :=
      Finset.card_insert_of_not_mem hst
    have h2 : start ∈ (flood_fill s start v₀).2 \ v₀ :=
      Finset.mem_sdiff.2 ⟨hsubF (Finset.mem_insert_self _ _), hst⟩
    rw [Finset.insert_eq_self.2 h2]
    have hcv : v₀.card ≤ (flood_fill s start v₀).2.card :=
      Finset.card_le_card hv₀sub
    omega

/-! ## Move evaluation -/

theorem risk_pred_eq (s : GameState) (q : Vec2) :
    (!s.isInsideGrid q || s.getGridCell q != 0)
      = decide (¬ s.isInsideGrid q = true ∨ s.getGridCell q ≠ 0) := by
  cases h : s.isInsideGrid q <;> by_cases h2 : s.getGridCell q = 0 <;> simp [h, h2]

theorem riskCount_eq_list (s : GameState) (p : Vec2) :
    (directionVectors.filter (fun d =>
      !s.isInsideGrid (p + d) || s.getGridCell (p + d) != 0)).length
      = riskCount s p := by
  rw [riskCount, ← List.countP_eq_length_filter]
  simp only [directionVectors, List.countP_cons, List.countP_nil, getDirectionVector,
    risk_pred_eq]

theorem evaluate_move_invalid (s : GameState) (pos : Vec2) (d : Direction)
    (h : is_valid_move s pos d = false) : evaluate_move s pos d = -1 := by
  rw [evaluate_move, h]
  rfl

theorem evaluate_move_valid (s : GameState) (pos : Vec2) (d : Direction)
    (h : is_valid_move s pos d = true) :
    evaluate_move s pos d
      = (areaFrom s (pos + getDirectionVector d) : Int)
        - riskCount s (pos + getDirectionVector d) * 10 := by
  rw [evaluate_move, h]
  show (((flood_fill s (pos + getDirectionVector d) (occupiedVisited s)).1 : Int)
    - (directionVectors.filter (fun dd =>
        !s.isInsideGrid (pos + getDirectionVector d + dd) ||
          s.getGridCell (pos + getDirectionVector d + dd) != 0)).length * 10) = _
  rw [riskCount_eq_list]
  rfl

theorem riskCount_le_four (s : GameState) (p : Vec2) : riskCount s p ≤ 4 := by
  rw [riskCount]
  exact le_trans (List.countP_le_length _) (by simp)

theorem evaluate_move_gt_min (s : GameState) (pos : Vec2) (d : Direction) :
    INT_MIN < evaluate_move s pos d := by
  cases h : is_valid_move s pos d
  · rw [evaluate_move_invalid s pos d h, INT_MIN]
    norm_num
  · rw [evaluate_move_valid s pos d h, INT_MIN]
    have h1 := riskCount_le_four s (pos + getDirectionVector d)
    have h2 : (0 : Int) ≤ (areaFrom s (pos + getDirectionVector d) : Int) :=
      Int.natCast_nonneg _
    omega

theorem getDirectionFromValue_surj (d : Direction) :
    ∃ i, i < 4 ∧ getDirectionFromValue i = d := by
  cases d
  · exact ⟨0, by norm_num, rfl⟩
  · exact ⟨1, by norm_num, rfl⟩
  · exact ⟨2, by norm_num, rfl⟩
  · exact ⟨3, by norm_num, rfl⟩

/-! ## The decision policy -/

theorem decide_move_eq_firstMax (s : GameState) (pos : Vec2) :
    decide_move s pos = getDirectionFromValue (firstMaxIdx s pos) := by
  have h0 : INT_MIN < evaluate_move s pos (getDirectionFromValue 0) :=
    evaluate_move_gt_min s pos _
  unfold decide_move firstMaxIdx dirScore
  simp only [List.foldl_cons, List.foldl_nil]
  split_ifs <;> first | rfl | omega

theorem firstMax_ge (s : GameState) (pos : Vec2) :
    ∀ i, i < 4 → dirScore s pos i ≤ dirScore s pos (firstMaxIdx s pos) := by
  intro i hi
  interval_cases i <;> (unfold firstMaxIdx; split_ifs <;> omega)

theorem decide_move_all_illegal (s : GameState) (pos : Vec2)
    (h : ∀ d : Direction, is_valid_move s pos d = false) :
    decide_move s pos = Direction.north := by
  have e0 : evaluate_move s pos (getDirectionFromValue 0) = -1 :=
    evaluate_move_invalid s pos _ (h _)
  have e1 : evaluate_move s pos (getDirectionFromValue 1) = -1 :=
    evaluate_move_invalid s pos _ (h _)
  have e2 : evaluate_move s pos (getDirectionFromValue 2) = -1 :=
    evaluate_move_invalid s pos _ (h _)
  have e3 : evaluate_move s pos (getDirectionFromValue 3) = -1 :=
    evaluate_move_invalid s pos _ (h _)
  unfold decide_move
  simp only [List.foldl_cons, List.foldl_nil, e0, e1, e2, e3]
  norm_num [INT_MIN]
  rfl

/-! ## Reachability on a fully empty grid, and components -/

theorem floodReach_eq_connComponent (s : GameState) (v₀ : Finset Vec2) (start : Vec2)
    (h : emptyCell s v₀ start) :
    floodReach s v₀ start = connComponent s v₀ start := by
  ext p
  simp only [floodReach, connComponent, Set.mem_setOf_eq]
  constructor
  · intro hp
    have hmain : sameComponent s v₀ start p ∧ (p = start ∨ emptyCell s v₀ p) := by
      induction hp with
      | refl => exact ⟨Relation.ReflTransGen.refl, Or.inl rfl⟩
      | @tail b c hab hbc ih =>
        have hbempty : emptyCell s v₀ b := by
          rcases ih.2 with rfl | h' 
          · exact h
          · exact h'
        exact ⟨Relation.ReflTransGen.tail ih.1 ⟨hbc.1, hbempty, hbc.2⟩, Or.inr hbc.2⟩
    exact hmain.1
  · intro hp
    exact Relation.ReflTransGen.mono (fun a b hab => ⟨hab.1, hab.2.2⟩) hp

theorem reach_horizontal (s : GameState)
    (hempty : ∀ p, s.isInsideGrid p = true → s.getGridCell p = 0) :
    ∀ (n : Nat) (a : Vec2) (tx : Int),
    s.isInsideGrid a = true → s.isInsideGrid ⟨tx, a.y⟩ = true →
    (tx - a.x).natAbs = n →
    Relation.ReflTransGen (fun u w => adjacent u w ∧ emptyCell s ∅ w) a ⟨tx, a.y⟩ := by
  intro n
  induction n with
  | zero =>
    intro a tx ha ht hn
    have hx : tx = a.x := by omega
    subst hx
    exact Relation.ReflTransGen.refl
  | succ n ih =>
    intro a tx ha ht hn
    have hax := ha
    simp only [GameState.isInsideGrid, decide_eq_true_eq] at hax
    have htx := ht
    simp only [GameState.isInsideGrid, decide_eq_true_eq] at htx
    rcases lt_or_gt_of_ne (show tx ≠ a.x by omega) with hlt | hgt
    · have hb : s.isInsideGrid ⟨a.x - 1, a.y⟩ = true := by
        simp only [GameState.isInsideGrid, decide_eq_true_eq]
        omega
      refine Relation.ReflTransGen.head
        ⟨⟨⟨-1, 0⟩, by simp [directionVectors], ?_⟩,
          hb, hempty _ hb, Finset.not_mem_empty _⟩ (ih ⟨a.x - 1, a.y⟩ tx hb ht ?_)
      all_goals first
        | (rw [Vec2.add_def]; simp only [Vec2.mk.injEq, true_and, and_true]; omega)
        | omega
        | (dsimp only; omega)
    · have hb : s.isInsideGrid ⟨a.x + 1, a.y⟩ = true := by
        simp only [GameState.isInsideGrid, decide_eq_true_eq]
        omega
      refine Relation.ReflTransGen.head
        ⟨⟨⟨1, 0⟩, by simp [directionVectors], ?_⟩,
          hb, hempty _ hb, Finset.not_mem_empty _⟩ (ih ⟨a.x + 1, a.y⟩ tx hb ht ?_)
      all_goals first
        | (rw [Vec2.add_def]; simp only [Vec2.mk.injEq, true_and, and_true]; omega)
        | omega
        | (dsimp only; omega)

theorem reach_vertical (s : GameState)
    (hempty : ∀ p, s.isInsideGrid p = true → s.getGridCell p = 0) :
    ∀ (n : Nat) (a : Vec2) (ty : Int),
    s.isInsideGrid a = true → s.isInsideGrid ⟨a.x, ty⟩ = true →
    (ty - a.y).natAbs = n →
    Relation.ReflTransGen (fun u w => adjacent u w ∧ emptyCell s ∅ w) a ⟨a.x, ty⟩ := by
  intro n
  induction n with
  | zero =>
    intro a ty ha ht hn
    have hy : ty = a.y := by omega
    subst hy
    exact Relation.ReflTransGen.refl
  | succ n ih =>
    intro a ty ha ht hn
    have hax := ha
    simp only [GameState.isInsideGrid, decide_eq_true_eq] at hax
    have hty := ht
    simp only [GameState.isInsideGrid, decide_eq_true_eq] at hty
    rcases lt_or_gt_of_ne (show ty ≠ a.y by omega) with hlt | hgt
    · have hb : s.isInsideGrid ⟨a.x, a.y - 1⟩ = true := by
        simp only [GameState.isInsideGrid, decide_eq_true_eq]
        omega
      refine Relation.ReflTransGen.head
        ⟨⟨⟨0, -1⟩, by simp [directionVectors], ?_⟩,
          hb, hempty _ hb, Finset.not_mem_empty _⟩ (ih ⟨a.x, a.y - 1⟩ ty hb ht ?_)
      all_goals first
        | (rw [Vec2.add_def]; simp only [Vec2.mk.injEq, true_and, and_true]; omega)
        | omega
        | (dsimp only; omega)
    · have hb : s.isInsideGrid ⟨a.x, a.y + 1⟩ = true := by
        simp only [GameState.isInsideGrid, decide_eq_true_eq]
        omega
      refine Relation.ReflTransGen.head
        ⟨⟨⟨0, 1⟩, by simp [directionVectors], ?_⟩,
          hb, hempty _ hb, Finset.not_mem_empty _⟩ (ih ⟨a.x, a.y + 1⟩ ty hb ht ?_)
      all_goals first
        | (rw [Vec2.add_def]; simp only [Vec2.mk.injEq, true_and, and_true]; omega)
        | omega
        | (dsimp only; omega)

theorem emptyGrid_reach (s : GameState)
    (hempty : ∀ p, s.isInsideGrid p = true → s.getGridCell p = 0)
    (start p : Vec2) (hs : s.isInsideGrid start = true)
    (hp : s.isInsideGrid p = true) : p ∈ floodReach s ∅ start := by
  have hsx := hs
  simp only [GameState.isInsideGrid, decide_eq_true_eq] at hsx
  have hpx := hp
  simp only [GameState.isInsideGrid, decide_eq_true_eq] at hpx
  have hmid : s.isInsideGrid ⟨p.x, start.y⟩ = true := by
    simp only [GameState.isInsideGrid, decide_eq_true_eq]
    omega
  have h1 := reach_horizontal s hempty ((p.x - start.x).natAbs) start p.x hs hmid rfl
  have h2 := reach_vertical s hempty ((p.y - start.y).natAbs) ⟨p.x, start.y⟩ p.y hmid hp rfl
  exact Relation.ReflTransGen.trans h1 h2

/-! ## Claim theorems -/

/-- Claim C1, counterexample to the claim as stated: on `cexGrid` with
the player at `(1,0)`, west is a legal move, yet `decide_move` returns
north, whose move is illegal (the legal west move scores `-39`, losing
to the `-1` sentinel of the illegal directions). -/
theorem decide_move_illegal_cex :
    decide_move cexGrid ⟨1, 0⟩ = Direction.north ∧
    is_valid_move cexGrid ⟨1, 0⟩ Direction.north = false ∧
    is_valid_move cexGrid ⟨1, 0⟩ Direction.west = true := by decide

/-- Claim C1, amended: every illegal direction is scored with the fixed
sentinel `-1` by `evaluate_move`, and `decide_move` never returns an
illegal direction provided some legal direction scores strictly more
than `-1` (a legal direction scoring at most `-1` can lose to the
sentinel). -/
theorem evaluate_move_illegal_spec :
    (∀ (s : GameState) (pos : Vec2) (d : Direction),
      is_valid_move s pos d = false → evaluate_move s pos d = -1) ∧
    (∀ (s : GameState) (pos : Vec2),
      (∃ d, is_valid_move s pos d = true ∧ evaluate_move s pos d > -1) →
      is_valid_move s pos (decide_move s pos) = true) := by
  constructor
  · exact evaluate_move_invalid
  · rintro s pos ⟨d, hdv, hdgt⟩
    obtain ⟨i, hi4, rfl⟩ := getDirectionFromValue_surj d
    have hge := firstMax_ge s pos i hi4
    cases hval : is_valid_move s pos (decide_move s pos)
    · exfalso
      have hm := evaluate_move_invalid s pos (decide_move s pos) hval
      rw [decide_move_eq_firstMax] at hm
      have hm' : dirScore s pos (firstMaxIdx s pos) = -1 := hm
      have hd' : dirScore s pos i > -1 := hdgt
      omega
    · rfl

/-- Claim C1 witness for the amended claim: on the empty 4-by-4 grid,
north from `(0,0)` is illegal and scores `-1`; from `(1,1)` some legal
direction scores above `-1`, and the chosen direction is legal. -/
theorem evaluate_move_illegal_spec_witness :
    evaluate_move emptyGrid4 ⟨0, 0⟩ Direction.north = -1 ∧
    is_valid_move emptyGrid4 ⟨1, 1⟩ (decide_move emptyGrid4 ⟨1, 1⟩) = true :=
  ⟨evaluate_move_illegal_spec.1 emptyGrid4 ⟨0, 0⟩ Direction.north (by decide),
   evaluate_move_illegal_spec.2 emptyGrid4 ⟨1, 1⟩
     ⟨Direction.north, by decide, by decide⟩⟩

/-- Claim C2: for every in-bounds, unvisited, unoccupied start cell the
flood fill returns exactly the number of cells in the connected
component of empty cells containing the start, under 4-neighbor
adjacency; on a grid with no occupied and no pre-visited cells it
returns `W * H` from any in-bounds start. -/
theorem flood_fill_component_count :
    (∀ (s : GameState) (v₀ : Finset Vec2) (start : Vec2),
      emptyCell s v₀ start →
      (flood_fill s start v₀).1 = (connComponent s v₀ start).ncard) ∧
    (∀ (s : GameState) (start : Vec2),
      (∀ p, s.isInsideGrid p = true → s.getGridCell p = 0) →
      s.isInsideGrid start = true →
      (flood_fill s start ∅).1 = s.gridWidth * s.gridHeight) := by
  constructor
  · intro s v₀ start h
    rw [flood_fill_area_eq, floodReach_eq_connComponent s v₀ start h]
  · intro s start hempty hstart
    rw [flood_fill_area_eq]
    have hset : floodReach s ∅ start = ↑(gridCells s) := by
      apply Set.eq_of_subset_of_subset
      · intro p hp
        rcases floodReach_cases hp with rfl | he
        · exact Finset.mem_coe.2 (mem_gridCells.2 hstart)
        · exact Finset.mem_coe.2 (mem_gridCells.2 he.1)
      · intro p hp
        exact emptyGrid_reach s hempty start p hstart
          (mem_gridCells.1 (Finset.mem_coe.1 hp))
    rw [hset, Set.ncard_coe_Finset, gridCells_card]

/-- Claim C2 witness: on `cexGrid` from the empty cell `(0,0)` the area
is the component count, and on the empty 3-by-3 grid the fill from the
center counts all nine cells. -/
theorem flood_fill_component_count_witness :
    (flood_fill cexGrid ⟨0, 0⟩ (occupiedVisited cexGrid)).1
      = (connComponent cexGrid (occupiedVisited cexGrid) ⟨0, 0⟩).ncard ∧
    (flood_fill emptyGrid3 ⟨1, 1⟩ ∅).1
      = emptyGrid3.gridWidth * emptyGrid3.gridHeight :=
  ⟨flood_fill_component_count.1 cexGrid (occupiedVisited cexGrid) ⟨0, 0⟩
    (by unfold emptyCell; exact ⟨by decide, by decide, by decide⟩),
   flood_fill_component_count.2 emptyGrid3 ⟨1, 1⟩ (fun p _ => rfl) (by decide)⟩

/-- Claim C3: the four directions are evaluated in enumeration order
with strictly-greater replacement, so `decide_move` returns the
direction of the earliest ordinal attaining the maximum score; in
particular ties keep the earlier direction. -/
theorem decide_move_tiebreak (s : GameState) (pos : Vec2) :
    decide_move s pos = getDirectionFromValue (firstMaxIdx s pos) :=
  decide_move_eq_firstMax s pos

/-- Claim C4: `decide_move` is total and returns exactly one direction;
when all four directions are illegal it still returns the initial best,
north. -/
theorem decide_move_total (s : GameState) (pos : Vec2) :
    (∃! d : Direction, decide_move s pos = d) ∧
    ((∀ d : Direction, is_valid_move s pos d = false) →
      decide_move s pos = Direction.north) :=
  ⟨⟨decide_move s pos, rfl, fun _ hy => hy.symm⟩,
   fun h => decide_move_all_illegal s pos h⟩

/-- Claim C4 witness: on the 1-by-1 grid every move is illegal and
north is returned. -/
theorem decide_move_total_witness :
    decide_move emptyGrid1 ⟨0, 0⟩ = Direction.north :=
  (decide_move_total emptyGrid1 ⟨0, 0⟩).2 (by decide)

/-- Claim C5: marking one extra cell occupied never increases the
flood-fill area computed from a fixed unoccupied start (with the
visited array seeded from occupancy, as `evaluate_move` does). -/
theorem flood_fill_area_antitone (s : GameState) (start c : Vec2)
    (hstart : s.getGridCell start = 0) :
    areaFrom (markOccupied s c) start ≤ areaFrom s start := by
  unfold areaFrom
  rw [flood_fill_area_eq, flood_fill_area_eq]
  refine Set.ncard_le_ncard ?_ (floodReach_finite s (occupiedVisited s) start)
  intro p hp
  refine Relation.ReflTransGen.mono ?_ hp
  rintro a b ⟨hadj, hin, hcell, hnot⟩
  refine ⟨hadj, hin, ?_, ?_⟩
  · by_cases hbc : b = c
    · rw [markOccupied] at hcell
      simp [hbc] at hcell
    · simpa [markOccupied, hbc] using hcell
  · intro hmem
    apply hnot
    simp only [occupiedVisited, Finset.mem_filter] at hmem ⊢
    refine ⟨hmem.1, ?_⟩
    by_cases hbc : b = c
    · simp [markOccupied, hbc]
    · simp only [markOccupied, if_neg hbc]
      exact hmem.2

/-- Claim C5 witness: occupying `(0,0)` of the empty 3-by-3 grid does
not increase the area from `(1,1)`. -/
theorem flood_fill_area_antitone_witness :
    areaFrom (markOccupied emptyGrid3 ⟨0, 0⟩) ⟨1, 1⟩ ≤ areaFrom emptyGrid3 ⟨1, 1⟩ :=
  flood_fill_area_antitone emptyGrid3 ⟨1, 1⟩ ⟨0, 0⟩ (by decide)

/-- Claim C6: on a valid move the score is exactly
`area - risk * 10`, where `risk` counts the destination's out-of-bounds
or occupied cardinal neighbors; with area held fixed, one extra blocked
neighbor lowers the score by exactly ten. -/
theorem evaluate_move_score_formula :
    (∀ (s : GameState) (pos : Vec2) (d : Direction),
      is_valid_move s pos d = true →
      evaluate_move s pos d
        = (areaFrom s (pos + getDirectionVector d) : Int)
          - riskCount s (pos + getDirectionVector d) * 10) ∧
    (∀ (s₁ s₂ : GameState) (pos₁ pos₂ : Vec2) (d₁ d₂ : Direction),
      is_valid_move s₁ pos₁ d₁ = true → is_valid_move s₂ pos₂ d₂ = true →
      areaFrom s₂ (pos₂ + getDirectionVector d₂)
        = areaFrom s₁ (pos₁ + getDirectionVector d₁) →
      riskCount s₂ (pos₂ + getDirectionVector d₂)
        = riskCount s₁ (pos₁ + getDirectionVector d₁) + 1 →
      evaluate_move s₂ pos₂ d₂ = evaluate_move s₁ pos₁ d₁ - 10) := by
  constructor
  · exact evaluate_move_valid
  · intro s₁ s₂ pos₁ pos₂ d₁ d₂ h₁ h₂ harea hrisk
    rw [evaluate_move_valid s₁ pos₁ d₁ h₁, evaluate_move_valid s₂ pos₂ d₂ h₂,
      harea, hrisk]
    push_cast
    ring

/-- Claim C6 witness: the formula at a concrete valid move, and the
exact ten-point drop between the empty 4-by-3 and 3-by-4 grids (equal
areas, risks 0 and 1 at the east destination of `(1,1)`). -/
theorem evaluate_move_score_formula_witness :
    evaluate_move emptyGrid3 ⟨1, 1⟩ Direction.north
      = (areaFrom emptyGrid3 (⟨1, 1⟩ + getDirectionVector Direction.north) : Int)
        - riskCount emptyGrid3 (⟨1, 1⟩ + getDirectionVector Direction.north) * 10 ∧
    evaluate_move emptyGrid3x4 ⟨1, 1⟩ Direction.east
      = evaluate_move emptyGrid4x3 ⟨1, 1⟩ Direction.east - 10 :=
  ⟨evaluate_move_score_formula.1 emptyGrid3 ⟨1, 1⟩ Direction.north (by decide),
   evaluate_move_score_formula.2 emptyGrid4x3 emptyGrid3x4 ⟨1, 1⟩ ⟨1, 1⟩
     Direction.east Direction.east (by decide) (by decide) (by decide) (by decide)⟩

/-- Claim C7: `is_valid_move` is a pure total function: for every grid,
any starting position (including out-of-range ones) and direction, it is
`true` exactly when the displaced position is inside the grid and its
cell is empty. -/
theorem is_valid_move_spec (s : GameState) (pos : Vec2) (d : Direction) :
    is_valid_move s pos d
      = (s.isInsideGrid (pos + getDirectionVector d) &&
          (s.getGridCell (pos + getDirectionVector d) == 0)) := by
  simp only [is_valid_move]
  cases h : s.isInsideGrid (pos + getDirectionVector d)
  · simp
  · by_cases h2 : s.getGridCell (pos + getDirectionVector d) = 0 <;> simp [h2]

/-- Claim C8: the decision is deterministic and independent of the
seeded random generator: two bots with the same game state and player
record choose the same direction, whatever their `rng` and name. -/
theorem decideMove_deterministic (b₁ b₂ : BotClient)
    (hs : b₁.state = b₂.state) (hp : b₁.my_player = b₂.my_player) :
    b₁.decideMove = b₂.decideMove := by
  unfold BotClient.decideMove
  rw [hs, hp]

/-- Claim C8 witness: `botA` and `botB` differ in name and seed but
share state and player, and decide identically. -/
theorem decideMove_deterministic_witness : botA.decideMove = botB.decideMove :=
  decideMove_deterministic botA botB rfl rfl

/-- Claim C9: from any in-bounds start cell, even an occupied or
pre-visited one, the flood fill counts the start unconditionally and so
returns at least one. -/
theorem flood_fill_area_pos (s : GameState) (v₀ : Finset Vec2) (start : Vec2)
    (hstart : s.isInsideGrid start = true) : 1 ≤ (flood_fill s start v₀).1 := by
  rw [flood_fill_area_eq]
  have hfin := floodReach_finite s v₀ start
  have hne : (floodReach s v₀ start).Nonempty := ⟨start, floodReach_self s v₀ start⟩
  have hpos := (Set.ncard_pos hfin).2 hne
  omega

/-- Claim C9 witness: the start `(1,0)` of `cexGrid` is occupied and
pre-visited, yet the area is at least one. -/
theorem flood_fill_area_pos_witness :
    1 ≤ (flood_fill cexGrid ⟨1, 0⟩ (occupiedVisited cexGrid)).1 :=
  flood_fill_area_pos cexGrid (occupiedVisited cexGrid) ⟨1, 0⟩ (by decide)

/-- Claim C10: with an in-bounds start, every cell the flood fill marks
in the caller's visited set is either pre-visited or inside the grid:
all visited-array writes land at in-bounds indices, so the out-of-bounds
branch is unreachable. -/
theorem flood_fill_writes_inbounds (s : GameState) (v₀ : Finset Vec2) (start : Vec2)
    (hstart : s.isInsideGrid start = true) :
    (flood_fill s start v₀).2 ⊆ v₀ ∪ gridCells s := by
  intro p hp
  have hv := flood_fill_visited_eq s v₀ start
  have hp' : p ∈ (↑v₀ ∪ floodReach s v₀ start : Set Vec2) := by
    rw [← hv]
    exact hp
  rcases hp' with h1 | h1
  · exact Finset.mem_union_left _ h1
  · rcases Set.mem_insert_iff.1 (floodReach_subset_grid s v₀ start h1) with rfl | h2
    · exact Finset.mem_union_right _ (mem_gridCells.2 hstart)
    · exact Finset.mem_union_right _ (Finset.mem_coe.1 h2)

/-- Claim C10 witness: the fill over the empty 3-by-3 grid from `(1,1)`
marks only in-grid cells. -/
theorem flood_fill_writes_inbounds_witness :
    (flood_fill emptyGrid3 ⟨1, 1⟩ ∅).2 ⊆ ∅ ∪ gridCells emptyGrid3 :=
  flood_fill_writes_inbounds emptyGrid3 ∅ ⟨1, 1⟩ (by decide)
